import Mathlib

/-!
Verification of the gitignore pattern compiler and rule-set evaluator
(`gitignore_parser.py`, single-module Python program).

The embedding below is a shallow one:

* Python strings are modelled as `List Char` (`Str`).
* `pathlib.Path` values are modelled as `FsPath`: an absolute-flag plus the
  list of path segments (the `parts` after the anchor).  Inputs are assumed
  to be already normalized; `Path.resolve()` — a filesystem collaborator
  that is out of scope per the spec — is modelled as the identity on such
  paths.
* The platform is POSIX: `os.sep = '/'`, `os.altsep = None`.  Hence in
  `fnmatch_pathname_to_regex` the computed `seps_group` is the regex text
  `[/]` and `nonsep` is `[^/]`.
* The regex STRING built by `fnmatch_pathname_to_regex` is modelled as a
  small regex AST (`RAtom`, `REnd`, `GRegex`): each string fragment the
  Python code appends corresponds to exactly one constructor.  `re.search`
  is modelled by an executable backtracking matcher (`atomsMatch`,
  `reSearch`).  The `(?ms)` flags are part of the semantics: `.` (in `.*`
  coming from `**`) matches every character including newline (DOTALL),
  and `$` / `^` also match before / after a newline (MULTILINE).
* Python exceptions that the claims are about (`ValueError` from
  `assert_absolute`, `IndexError` from indexing an empty string) are
  modelled with `Except PyErr`.
-/

set_option maxHeartbeats 1000000

/-- Python strings are modelled as lists of characters. -/
abbrev Str := List Char

/-- The exceptions relevant to the claims: `ValueError` raised by
`assert_absolute`, and `IndexError` raised by `s[-1]` on an empty string. -/
inductive PyErr where
  | valueError
  | indexError
  deriving DecidableEq, Repr

/-- Model of a (already normalized, already resolved) `pathlib` path:
whether it is absolute, and its segments (the `parts` after the root
anchor). -/
structure FsPath where
  absolute : Bool
  segs : List Str
  deriving DecidableEq, Repr

/-! ### Small string helpers mirroring the Python string methods used -/

/-- `s.startswith(m)`-and-cut helper `str_lcut` from the source: returns the
string with the prefix removed and whether the prefix was present. -/
def str_lcut (s m : Str) : Str × Bool :=
  if m.isPrefixOf s then (s.drop m.length, true) else (s, false)

/-- `s.endswith(m)`-and-cut helper `str_rcut` from the source: returns the
string with the suffix removed and whether the suffix was present. -/
def str_rcut (s m : Str) : Str × Bool :=
  if m.isSuffixOf s then (s.take (s.length - m.length), true) else (s, false)

/-- Python `str.rstrip()`: remove trailing whitespace. -/
def rstripWs (s : Str) : Str :=
  (s.reverse.dropWhile Char.isWhitespace).reverse

/-- Python `str.strip()`: remove leading and trailing whitespace. -/
def stripWs (s : Str) : Str :=
  rstripWs (s.dropWhile Char.isWhitespace)

/-- Python `str.rstrip('\n')` as applied to each line read from the
ignore file. -/
def rstripNl (s : Str) : Str :=
  (s.reverse.dropWhile (fun c => c = '\n')).reverse

/-- Python `needle in hay` / `hay.find(needle) > -1`: substring test. -/
def isSubstr (needle hay : Str) : Bool :=
  hay.tails.any (fun t => needle.isPrefixOf t)

/-! ### The regex AST produced by the glob translator

Each constructor corresponds to one fragment of regex text appended by
`fnmatch_pathname_to_regex` (POSIX separators, see the header comment):

* `lit c`        — `re.escape(c)`, a literal character;
* `nonsep`       — `[^/]`, produced for `?`;
* `sep`          — `[/]` (the `seps_group`), produced for `/`;
* `sepOpt`       — `[/]?`, produced for the `/` following `**`;
* `nonsepStar`   — `[^/]*`, produced for a single `*`;
* `anyStar`      — `.*`, produced for `**`;
* `cls neg body` — `[body]` / `[^body]`, a character class.
-/
inductive RAtom where
  | lit (c : Char)
  | nonsep
  | sep
  | sepOpt
  | nonsepStar
  | anyStar
  | cls (neg : Bool) (body : Str)
  deriving DecidableEq, Repr

/-- The end-of-regex text appended after the scan:
`eos` is `$`, `slashEos` is `/$`, `eosOrSep` is `($|\/)`. -/
inductive REnd where
  | eos
  | slashEos
  | eosOrSep
  deriving DecidableEq, Repr

/-- The compiled regex: optional `^` anchor, the scanned atoms, and the
ending fragment.  The `(?ms)` prefix is part of the matching semantics. -/
structure GRegex where
  anchored : Bool
  atoms : List RAtom
  ending : REnd
  deriving DecidableEq, Repr

/-! ### Regex matching semantics (`re.search` with `(?ms)`) -/

/-- Membership in a regex character class body: `\x` is a literal `x`,
`a-b` is a range, anything else is a literal character. -/
def clsMem : Str → Char → Bool
  | [], _ => false
  | '\\' :: x :: rest, c => x = c || clsMem rest c
  | a :: '-' :: b :: rest, c => (a ≤ c && c ≤ b) || clsMem rest c
  | a :: rest, c => a = c || clsMem rest c

/-- Matching of the ending fragment against the rest of the input.  With
the `m` flag `$` matches at end of input or just before a newline. -/
def endMatch : REnd → Str → Bool
  | .eos, s => s.isEmpty || s.head? = some '\n'
  | .slashEos, s =>
      match s with
      | '/' :: t => t.isEmpty || t.head? = some '\n'
      | _ => false
  | .eosOrSep, s => s.isEmpty || s.head? = some '\n' || s.head? = some '/'

/-- Star backtracking: try the continuation `k` on the current input, else
consume one character satisfying `cond` and repeat. -/
def tryStar (cond : Char → Bool) (k : Str → Bool) : Str → Bool
  | [] => k []
  | c :: t => k (c :: t) || (cond c && tryStar cond k t)

/-- Matching a sequence of atoms (then the ending) against an input.
`anyStar` (`.*` under the `s` flag) may consume any characters including
newlines and separators; `nonsepStar` (`[^/]*`) consumes only
non-separator characters. -/
def atomsMatch : List RAtom → Str → REnd → Bool
  | [], s, e => endMatch e s
  | .lit c :: as, s, e =>
      match s with
      | [] => false
      | x :: t => x = c && atomsMatch as t e
  | .nonsep :: as, s, e =>
      match s with
      | [] => false
      | x :: t => !(x = '/' : Bool) && atomsMatch as t e
  | .sep :: as, s, e =>
      match s with
      | [] => false
      | x :: t => (x = '/' : Bool) && atomsMatch as t e
  | .sepOpt :: as, s, e =>
      atomsMatch as s e ||
        (match s with
         | '/' :: t => atomsMatch as t e
         | _ => false)
  | .nonsepStar :: as, s, e =>
      tryStar (fun c => !(c = '/' : Bool)) (fun t => atomsMatch as t e) s
  | .anyStar :: as, s, e =>
      tryStar (fun _ => true) (fun t => atomsMatch as t e) s
  | .cls neg body :: as, s, e =>
      match s with
      | [] => false
      | x :: t => (clsMem body x != neg) && atomsMatch as t e

/-- Suffixes of the input that start just after a newline: with the `m`
flag `^` also matches right after a `'\n'`. -/
def mlStarts : Str → List Str
  | [] => []
  | c :: t => (if c = '\n' then [t] else []) ++ mlStarts t

/-- `re.search(regex, s)`: an anchored regex (leading `^`, `m` flag) must
match from the start of the input or right after a newline; an unanchored
regex may match starting at any position. -/
def reSearch (g : GRegex) (s : Str) : Bool :=
  if g.anchored then
    atomsMatch g.atoms s g.ending || (mlStarts s).any (fun t => atomsMatch g.atoms t g.ending)
  else
    s.tails.any (fun t => atomsMatch g.atoms t g.ending)

/-! ### The glob translator `fnmatch_pathname_to_regex` -/

/-- Scan for the closing `]` of a character class (the `while` loop of the
`[` branch): returns the characters before the first `]` and the rest of
the input after it, or `none` when the class is unterminated. -/
def splitAtClose : Str → Option (Str × Str)
  | [] => none
  | ']' :: t => some ([], t)
  | c :: t =>
      match splitAtClose t with
      | none => none
      | some (b, a) => some (c :: b, a)

/-- The index gymnastics of the `[` branch: a `!` directly after `[` and a
`]` directly after that are skipped before looking for the closing `]`
(so both end up inside the class body).  Returns the class body text
(`stuff = pattern[i:j]`) and the input after the closing `]`. -/
def classSplit (rest : Str) : Option (Str × Str) :=
  let p1 : Str × Str := match rest with
    | '!' :: t => (['!'], t)
    | _ => ([], rest)
  let p2 : Str × Str := match p1.2 with
    | ']' :: t => ([']'], t)
    | _ => ([], p1.2)
  match splitAtClose p2.2 with
  | none => none
  | some (b, a) => some (p1.1 ++ p2.1 ++ b, a)

/-- `stuff.replace('\\', '\\\\')`: double every backslash so a literal
backslash of the glob stays a literal backslash of the regex class. -/
def doubleBackslashes : Str → Str
  | [] => []
  | '\\' :: t => '\\' :: '\\' :: doubleBackslashes t
  | c :: t => c :: doubleBackslashes t

/-- Build the class atom from the raw `stuff`: a leading `!` becomes class
negation (regex `^`), a leading literal `^` is escaped. -/
def mkCls (stuffRaw : Str) : RAtom :=
  let stuff := doubleBackslashes stuffRaw
  match stuff with
  | '!' :: t => .cls true t
  | '^' :: _ => .cls false ('\\' :: stuff)
  | _ => .cls false stuff

/-- The scanning loop of `fnmatch_pathname_to_regex` (`while i < n`),
written with explicit fuel.  The fuel only bounds the recursion: every
step consumes at least one input character, so fuel `=` input length is
always enough and the `0` case is never reached from `transBody`.

The `*` branch mirrors the Python `try/except IndexError` exactly:

* `*` followed by `*` followed by `/`: append `.*` then `[/]?`;
* `*` followed by `*` at end of input: the inner `pattern[i]` lookup
  raises `IndexError`, so after appending `.*` the handler also appends
  `[^/]*`;
* `*` followed by anything else (or at end of input): append `[^/]*`.
-/
def transBodyF : Nat → Str → List RAtom
  | 0, _ => []
  | _ + 1, [] => []
  | f + 1, '*' :: '*' :: '/' :: rest => .anyStar :: .sepOpt :: transBodyF f rest
  | _ + 1, ['*', '*'] => [.anyStar, .nonsepStar]
  | f + 1, '*' :: '*' :: rest => .anyStar :: transBodyF f rest
  | f + 1, '*' :: rest => .nonsepStar :: transBodyF f rest
  | f + 1, '?' :: rest => .nonsep :: transBodyF f rest
  | f + 1, '/' :: rest => .sep :: transBodyF f rest
  | f + 1, '[' :: rest =>
      (match classSplit rest with
       | none => .lit '[' :: transBodyF f rest
       | some (stuff, after) => mkCls stuff :: transBodyF f after)
  | f + 1, c :: rest => .lit c :: transBodyF f rest

/-- The scan of the glob body into regex atoms. -/
def transBody (s : Str) : List RAtom :=
  transBodyF s.length s

/-- `fnmatch_pathname_to_regex`: translate a glob body (with anchors,
negation marker and directory marker already stripped) into the compiled
regex.  The post-scan assembly mirrors the source: `^` when anchored, then
`$` when not directory-only, `/$` for a negated directory-only rule, and
`($|\/)` otherwise. -/
def fnmatch_pathname_to_regex (pattern : Str) (directory_only negation : Bool)
    (anchored : Bool) : GRegex :=
  { anchored := anchored
    atoms := transBody pattern
    ending :=
      if !directory_only then .eos
      else if negation then .slashEos
      else .eosOrSep }

/-! ### The pattern compiler `rule_from_pattern` -/

/-- The compiled `IgnoreRule` record (a frozen namedtuple in the source),
with the same fields. -/
structure IgnoreRule where
  pattern : Str
  regex : GRegex
  negation : Bool
  directory_only : Bool
  anchored : Bool
  base_path : FsPath
  source : Str × Nat
  deriving DecidableEq, Repr

/-- Stripping a leading `!` (`if negation: pattern = pattern[1:]`). -/
def bangStripped (p : Str) : Str :=
  if p.head? == some '!' then p.drop 1 else p

/-- The invalid-`**` test of `rule_from_pattern` (the `re.finditer` loop,
applied after the leading `!` was stripped): some occurrence of `**` at
index `k` is neither at the very start (`k = 0`), nor at the very end
(`k = len - 2`), nor surrounded by `/` on both sides.  Because patterns
containing `***` were already discarded, `**` occurrences cannot overlap,
so quantifying over all indices is the same as `re.finditer`. -/
def badDoubleStar (p : Str) : Bool :=
  (List.range p.length).any fun k =>
    ['*', '*'].isPrefixOf (p.drop k) &&
    !(k = 0 : Bool) && !(k = p.length - 2 : Bool) &&
    (!(p.get? (k - 1) = some '/' : Bool) || !(p.get? (k + 2) = some '/' : Bool))

/-- Everything `rule_from_pattern` does after the `assert_absolute`
precondition check.  Early `return`s of `None` become `.ok none`; the
`pattern[-1]` access on the (possibly emptied) pattern is the one
`IndexError` site. -/
def rule_from_pattern_body (pattern : Str) (base_path : FsPath)
    (source : Str × Nat) : Except PyErr (Option IgnoreRule) :=
  -- Discard comments and separators
  if stripWs pattern = [] then .ok none
  else if pattern.head? = some '#' then .ok none
  -- Discard anything with more than two consecutive asterisks
  else if isSubstr ['*', '*', '*'] pattern then .ok none
  else
    -- Strip leading bang before examining double asterisks
    let negation := pattern.head? == some '!'
    let pattern1 := bangStripped pattern
    -- Discard anything with invalid double-asterisks
    if badDoubleStar pattern1 then .ok none
    -- Special-casing '/', which doesn't match any files or directories
    else if rstripWs pattern1 = ['/'] then .ok none
    else
      match pattern1.getLast? with
      | none => .error .indexError   -- pattern[-1] on an empty pattern
      | some lastC =>
        let directory_only := lastC = '/'
        -- A slash is a sign that we're tied to the base_path of our rule set.
        let anchored0 := '/' ∈ pattern1.dropLast
        let c1 := str_lcut pattern1 ['/']
        let c2 := str_lcut c1.1 ['*', '*']
        let anchored := if c2.2 then false else anchored0
        let c3 := str_lcut c2.1 ['/']
        let c4 := str_rcut c3.1 ['/']
        -- patterns with leading hashes are escaped with a backslash, unescape
        let c5 := if ['\\', '#'].isPrefixOf c4.1 then c4.1.drop 1 else c4.1
        -- trailing spaces are ignored unless escaped with a backslash
        let c6 := rstripWs c5
        let c7 := str_rcut c6 ['\\']
        let body := if c7.2 then c7.1 ++ [' '] else c7.1
        .ok (some
          { pattern := pattern
            regex := fnmatch_pathname_to_regex body directory_only negation anchored
            negation := negation
            directory_only := directory_only
            anchored := anchored
            base_path := base_path
            source := source })

/-- `rule_from_pattern`: the `assert_absolute` precondition (a `ValueError`
when the base path is not absolute) followed by the compilation body. -/
def rule_from_pattern (pattern : Str) (base_path : FsPath)
    (source : Str × Nat) : Except PyErr (Option IgnoreRule) :=
  if base_path.absolute = false then .error .valueError
  else rule_from_pattern_body pattern base_path source

/-- The compilation loop of `parse_gitignore` over the lines of the ignore
file (`enumerate` is zero-based, the recorded line number is one-based;
each line has its trailing newlines stripped).  File opening itself is
plumbing outside the model. -/
def parse_lines_from (base : FsPath) (name : Str) :
    Nat → List Str → Except PyErr (List IgnoreRule)
  | _, [] => .ok []
  | n, line :: rest =>
      match rule_from_pattern (rstripNl line) base (name, n + 1) with
      | .error e => .error e
      | .ok none => parse_lines_from base name (n + 1) rest
      | .ok (some r) => (parse_lines_from base name (n + 1) rest).map (r :: ·)

/-- Compile a whole ignore file (as its list of lines) into the ordered
rule sequence, in file order. -/
def parse_gitignore_lines (base : FsPath) (name : Str) (lines : List Str) :
    Except PyErr (List IgnoreRule) :=
  parse_lines_from base name 0 lines

/-! ### The rule-set evaluator `handle_negation` and `IgnoreRule.match` -/

/-- `abs_path.resolve().relative_to(base_path).parts` for already-resolved
paths: the candidate's segments past the base, or `none` (the `except`
branch of `IgnoreRule.match`) when the candidate is not inside the base. -/
def relParts (p base : FsPath) : Option (List Str) :=
  if p.absolute == base.absolute && base.segs.isPrefixOf p.segs then
    some (p.segs.drop base.segs.length)
  else none

/-- `os.sep.join(parts)` on POSIX. -/
def joinSep : List Str → Str
  | [] => []
  | [s] => s
  | s :: rest => s ++ '/' :: joinSep rest

/-- `IgnoreRule.match(abs_path, is_dir)`.  The filesystem probe
`abs_path.is_dir()` (used only when no hint is supplied) is the external
collaborator `fs`.  For a negated rule on a directory, a trailing
separator is appended to the relative path before the regex search. -/
def IgnoreRule.matchPath (r : IgnoreRule) (fs : FsPath → Bool) (abs_path : FsPath)
    (is_dir : Option Bool) : Bool :=
  let isd := match is_dir with
    | none => fs abs_path
    | some b => b
  match relParts abs_path r.base_path with
  | none => false
  | some parts =>
      let rel := joinSep parts
      let rel := if r.negation && isd then rel ++ ['/'] else rel
      reSearch r.regex rel

/-- The `for rule in reversed(rules)` loop of `handle_negation`: the first
rule (of the already-reversed list) whose match predicate holds decides
the outcome (`not rule.negation`); `False` when the list is exhausted. -/
def scanRules (fs : FsPath → Bool) (p : FsPath) (isd : Option Bool) :
    List IgnoreRule → Bool
  | [] => false
  | r :: rest =>
      if r.matchPath fs p isd then !r.negation else scanRules fs p isd rest

/-- A candidate handed to the matcher predicate: either a raw string or a
structured path object. -/
inductive PathInput where
  | str (s : Str)
  | path (p : FsPath)

/-- `Path(s)` for a normalized string: absolute iff it starts with the
separator; segments are the nonempty chunks between separators. -/
def splitSlash : Str → List Str
  | [] => [[]]
  | '/' :: t => [] :: splitSlash t
  | c :: t =>
      match splitSlash t with
      | [] => [[c]]
      | g :: gs => (c :: g) :: gs

/-- Conversion of a raw string candidate into a path (`Path(_file_path)`). -/
def pathOfStr (s : Str) : FsPath :=
  { absolute := s.head? == some '/'
    segs := (splitSlash s).filter (fun seg => !seg.isEmpty) }

/-- `handle_negation(rules, _file_path)`: a structured path gets
`is_dir = None` (to be probed from the filesystem inside `match`); a raw
string gets the explicit hint `_file_path[-1] == os.sep`, which raises
`IndexError` on the empty string.  (The `else: raise ValueError` branch
for other input types is unrepresentable in this typed model.) -/
def handle_negation (fs : FsPath → Bool) (rules : List IgnoreRule) :
    PathInput → Except PyErr Bool
  | .path p => .ok (scanRules fs p none rules.reverse)
  | .str s =>
      match s.getLast? with
      | none => .error .indexError
      | some c => .ok (scanRules fs (pathOfStr s) (some (c == '/')) rules.reverse)

/-- The rule fields other than the diagnostic `source` tag. -/
def ruleCore (r : IgnoreRule) : Str × GRegex × Bool × Bool × Bool × FsPath :=
  (r.pattern, r.regex, r.negation, r.directory_only, r.anchored, r.base_path)

/-- Compilation results up to the diagnostic `source` field. -/
def coresOf (x : Except PyErr (List IgnoreRule)) :
    Except PyErr (List (Str × GRegex × Bool × Bool × Bool × FsPath)) :=
  x.map (List.map ruleCore)

/-- Comparison definition for the refinement claim, written from the
spec's words: scan the rules forward, remember the last rule that
matches, and return that rule's outcome (`not ignored` when none). -/
def specForwardLastMatch (fs : FsPath → Bool) (p : FsPath) (isd : Option Bool)
    (rules : List IgnoreRule) : Bool :=
  match rules.foldl
      (fun acc r => if r.matchPath fs p isd then some r else acc) none with
  | some r => !r.negation
  | none => false

/-- Reference compilation that forgets the diagnostic line numbers. -/
def parse_cores_from (b : FsPath) (nm : Str) :
    List Str → Except PyErr (List (Str × GRegex × Bool × Bool × Bool × FsPath))
  | [] => .ok []
  | line :: rest =>
      match (rule_from_pattern (rstripNl line) b (nm, 0)).map (Option.map ruleCore) with
      | .error e => .error e
      | .ok none => parse_cores_from b nm rest
      | .ok (some c) => (parse_cores_from b nm rest).map (c :: ·)

/-! ### Concrete instances used in closed evaluations -/

/-- A concrete absolute base directory `/b`. -/
def demoBase : FsPath := ⟨true, [['b']]⟩

/-- A filesystem collaborator on which nothing is a directory. -/
def fsNoDirs : FsPath → Bool := fun _ => false

/-- A filesystem collaborator on which exactly `/b/a` is a directory. -/
def fsDirBA : FsPath → Bool := fun p => p.segs == [['b'], ['a']]

/-- Compile the given lines against `demoBase`; no rules on a compile error. -/
def demoRules (lines : List String) : List IgnoreRule :=
  (parse_gitignore_lines demoBase [] (lines.map String.data)).toOption.getD []

/-- The expected compiled rule for the pattern `**/x` (leading `**/`
stripped and anchoring cancelled, glob body `x`, unanchored search for
`x` at end of the relative path). -/
def starStarSlashXRule (base : FsPath) (src : Str × Nat) : IgnoreRule :=
  { pattern := ['*', '*', '/', 'x']
    regex := ⟨false, [.lit 'x'], .eos⟩
    negation := false
    directory_only := false
    anchored := false
    base_path := base
    source := src }

/-- The expected compiled rule for the pattern `a/**` (anchored; the
trailing `**` hits the `IndexError` fallback and compiles to `.*[^/]*`). -/
def aSlashStarStarRule (base : FsPath) (src : Str × Nat) : IgnoreRule :=
  { pattern := ['a', '/', '*', '*']
    regex := ⟨true, [.lit 'a', .sep, .anyStar, .nonsepStar], .eos⟩
    negation := false
    directory_only := false
    anchored := true
    base_path := base
    source := src }

/-! ### Helper lemmas -/

theorem scanRules_eq_find? (fs : FsPath → Bool) (p : FsPath) (isd : Option Bool)
    (l : List IgnoreRule) :
    scanRules fs p isd l =
      match l.find? (fun r => r.matchPath fs p isd) with
      | some r => !r.negation
      | none => false := by
  induction l with
  | nil => rfl
  | cons r rest ih =>
      by_cases h : r.matchPath fs p isd = true
      · simp [scanRules, h]
      · simp only [scanRules, h, if_false, Bool.false_eq_true, if_neg, ih]
        rw [List.find?_cons_of_neg _ (by simp [h])]

theorem foldl_lastMatch (pr : IgnoreRule → Bool) (l : List IgnoreRule)
    (acc : Option IgnoreRule) :
    l.foldl (fun a r => if pr r then some r else a) acc =
      (l.reverse.find? pr).or acc := by
  induction l generalizing acc with
  | nil => simp
  | cons r t ih =>
      simp only [List.foldl_cons, ih, List.reverse_cons, List.find?_append]
      by_cases h : pr r = true
      · cases hf : t.reverse.find? pr <;> simp [List.find?, h, Option.or]
      · cases hf : t.reverse.find? pr <;> simp [List.find?, h, Option.or]

theorem tryStar_iff (cond : Char → Bool) (k : Str → Bool) (s : Str) :
    tryStar cond k s = true ↔
      ∃ n, (∀ c ∈ s.take n, cond c = true) ∧ k (s.drop n) = true := by
  induction s with
  | nil =>
      simp only [tryStar, List.take_nil, List.drop_nil, List.not_mem_nil,
        false_implies, implies_true, true_and]
      exact ⟨fun h => ⟨0, h⟩, fun ⟨_, h⟩ => h⟩
  | cons c t ih =>
      simp only [tryStar, Bool.or_eq_true, Bool.and_eq_true]
      constructor
      · rintro (h | ⟨hc, hs⟩)
        · exact ⟨0, by simp, h⟩
        · obtain ⟨n, h1, h2⟩ := ih.mp hs
          refine ⟨n + 1, ?_, h2⟩
          intro x hx
          rcases List.mem_cons.mp (by simpa using hx) with rfl | hx'
          · exact hc
          · exact h1 x hx'
      · rintro ⟨n, h1, h2⟩
        cases n with
        | zero => exact Or.inl h2
        | succ m =>
            refine Or.inr ⟨h1 c (by simp), ih.mpr ⟨m, ?_, h2⟩⟩
            intro x hx
            exact h1 x (by simpa using Or.inr hx)

theorem isPrefixOf_append_self (l m : List Str) :
    List.isPrefixOf l (l ++ m) = true := by
  simp

theorem joinSep_cons_cons (s x : Str) (t : List Str) :
    joinSep (s :: x :: t) = s ++ '/' :: joinSep (x :: t) := rfl

theorem joinSep_concat : ∀ (l : List Str) (x : Str), ∃ pre, joinSep (l ++ [x]) = pre ++ x
  | [], _ => ⟨[], rfl⟩
  | [s], x => ⟨s ++ ['/'], by simp [joinSep]⟩
  | s :: y :: u, x => by
      obtain ⟨pre, hp⟩ := joinSep_concat (y :: u) x
      refine ⟨s ++ '/' :: pre, ?_⟩
      show joinSep (s :: y :: (u ++ [x])) = (s ++ '/' :: pre) ++ x
      rw [joinSep_cons_cons]
      have hp' : joinSep (y :: (u ++ [x])) = pre ++ x := hp
      rw [hp']
      simp

theorem reSearch_lit_last (c : Char) (pre : Str) :
    reSearch ⟨false, [.lit c], .eos⟩ (pre ++ [c]) = true := by
  simp only [reSearch, if_neg (by simp : ¬(false = true)), List.any_eq_true]
  refine ⟨[c], ?_, by simp [atomsMatch, endMatch]⟩
  rw [List.mem_tails]
  exact List.suffix_append pre [c]

theorem tryStar_all (k : Str → Bool) (hk : k [] = true) :
    ∀ s, tryStar (fun _ => true) k s = true
  | [] => hk
  | c :: t => by
      unfold tryStar
      rw [tryStar_all k hk t]
      simp

theorem anyStar_nonsepStar_eos (s : Str) :
    atomsMatch [.anyStar, .nonsepStar] s .eos = true :=
  tryStar_all _ rfl s

theorem rstripWs_isPrefix (l : Str) : rstripWs l <+: l := by
  have h := List.dropWhile_suffix (l := l.reverse) (p := Char.isWhitespace)
  rw [← List.reverse_reverse (List.dropWhile _ _)] at h
  rw [List.reverse_suffix] at h
  exact h

theorem rstripWs_slash_head {l : Str} (h : rstripWs l = ['/']) :
    l.head? = some '/' := by
  have hp := rstripWs_isPrefix l
  rw [h] at hp
  obtain ⟨t, ht⟩ := hp
  rw [← ht]
  rfl

theorem rule_from_pattern_core_src (p : Str) (b : FsPath) (s1 s2 : Str × Nat) :
    (rule_from_pattern p b s1).map (Option.map ruleCore) =
      (rule_from_pattern p b s2).map (Option.map ruleCore) := by
  unfold rule_from_pattern rule_from_pattern_body
  by_cases h1 : b.absolute = false
  · rw [if_pos h1, if_pos h1]
  · rw [if_neg h1, if_neg h1]
    by_cases h2 : stripWs p = []
    · rw [if_pos h2, if_pos h2]
    · rw [if_neg h2, if_neg h2]
      by_cases h3 : List.head? p = some '#'
      · rw [if_pos h3, if_pos h3]
      · rw [if_neg h3, if_neg h3]
        by_cases h4 : isSubstr ['*', '*', '*'] p = true
        · rw [if_pos h4, if_pos h4]
        · rw [if_neg h4, if_neg h4]
          by_cases h5 : badDoubleStar (bangStripped p) = true
          · rw [if_pos h5, if_pos h5]
          · rw [if_neg h5, if_neg h5]
            by_cases h6 : rstripWs (bangStripped p) = ['/']
            · rw [if_pos h6, if_pos h6]
            · rw [if_neg h6, if_neg h6]
              cases h7 : List.getLast? (bangStripped p) with
              | none => simp [h7]
              | some c => simp [h7, Except.map, Option.map, ruleCore]

theorem parse_lines_from_cores (b : FsPath) (nm : Str) :
    ∀ (ls : List Str) (n : Nat),
      coresOf (parse_lines_from b nm n ls) = parse_cores_from b nm ls := by
  intro ls
  induction ls with
  | nil => intro n; rfl
  | cons line rest ih =>
      intro n
      have hc := rule_from_pattern_core_src (rstripNl line) b (nm, n + 1) (nm, 0)
      simp only [parse_lines_from, parse_cores_from, ← hc]
      cases hx : rule_from_pattern (rstripNl line) b (nm, n + 1) with
      | error e => simp [coresOf, Except.map]
      | ok o =>
          cases o with
          | none =>
              simp only [Except.map, Option.map]
              exact ih (n + 1)
          | some r =>
              simp only [Except.map, Option.map]
              cases hrec : parse_lines_from b nm (n + 1) rest with
              | error e =>
                  have h2 := ih (n + 1)
                  rw [hrec] at h2
                  simp only [coresOf, Except.map] at h2
                  rw [← h2]
                  simp [coresOf, Except.map]
              | ok l =>
                  have h2 := ih (n + 1)
                  rw [hrec] at h2
                  simp only [coresOf, Except.map] at h2
                  rw [← h2]
                  simp [coresOf, Except.map]

theorem parse_cores_skip (b : FsPath) (nm : Str) (line : Str)
    (h : rule_from_pattern (rstripNl line) b (nm, 0) = .ok none)
    (xs ys : List Str) :
    coresOf (parse_gitignore_lines b nm (xs ++ line :: ys)) =
      coresOf (parse_gitignore_lines b nm (xs ++ ys)) := by
  show coresOf (parse_lines_from b nm 0 _) = coresOf (parse_lines_from b nm 0 _)
  rw [parse_lines_from_cores, parse_lines_from_cores]
  induction xs with
  | nil => simp [parse_cores_from, h, Except.map, Option.map]
  | cons a t ih =>
      simp only [List.cons_append, parse_cores_from]
      cases hx : (rule_from_pattern (rstripNl a) b (nm, 0)).map (Option.map ruleCore) with
      | error e => rfl
      | ok o =>
          cases o with
          | none => exact ih
          | some c => exact congrArg (Except.map (c :: ·)) ih

theorem rstripNl_eq_self {l : Str} (h : '\n' ∉ l) : rstripNl l = l := by
  have hd : List.dropWhile (fun c => decide (c = '\n')) l.reverse = l.reverse := by
    cases hr : l.reverse with
    | nil => rfl
    | cons c t =>
        have hcl : c ∈ l := by
          rw [← List.mem_reverse, hr]
          exact List.mem_cons_self _ _
        have hc : ¬(c = '\n') := fun he => h (he ▸ hcl)
        rw [List.dropWhile_cons, if_neg (by simpa using hc)]
  unfold rstripNl
  rw [hd, List.reverse_reverse]

theorem matchPath_some_fs (r : IgnoreRule) (fs fs' : FsPath → Bool) (p : FsPath)
    (b : Bool) : r.matchPath fs p (some b) = r.matchPath fs' p (some b) := rfl

theorem scanRules_some_fs (fs fs' : FsPath → Bool) (p : FsPath) (b : Bool) :
    ∀ l, scanRules fs p (some b) l = scanRules fs' p (some b) l
  | [] => rfl
  | r :: rest => by
      unfold scanRules
      rw [matchPath_some_fs r fs fs' p b, scanRules_some_fs fs fs' p b rest]

theorem relParts_append (base : FsPath) (rest : List Str)
    (habs : base.absolute = true) :
    relParts ⟨true, base.segs ++ rest⟩ base = some rest := by
  unfold relParts
  rw [if_pos]
  · rw [List.drop_left]
  · rw [habs]
    simp

theorem aStarStar_atoms_match (rest : Str) :
    atomsMatch [.lit 'a', .sep, .anyStar, .nonsepStar] ('a' :: '/' :: rest) .eos
      = true := by
  have h := anyStar_nonsepStar_eos rest
  simp only [atomsMatch] at h ⊢
  simp [h]

/-! ### Claim theorems -/

/-- Claim C1: for every compiled rule sequence and every candidate path,
the matcher predicate walks the rules in reverse declaration order and,
at the first rule whose match predicate holds, returns `not negation`
(`ignored` unless the rule is a negation); when no rule matches it
returns `not ignored` (`false`).  Stated for any directory hint, and tied
to the `handle_negation` entry point for structured path candidates. -/
theorem claim1_reverse_first_match (fs : FsPath → Bool) (rules : List IgnoreRule)
    (p : FsPath) (isd : Option Bool) :
    scanRules fs p isd rules.reverse =
      (match rules.reverse.find? (fun r => r.matchPath fs p isd) with
       | some r => !r.negation
       | none => false) ∧
    handle_negation fs rules (.path p) = .ok (scanRules fs p none rules.reverse) :=
  ⟨scanRules_eq_find? fs p isd rules.reverse, rfl⟩

/-- Claim C8: scanning the rules in reverse order and returning at the
first match yields the same decision as scanning forward and remembering
the last matching rule (with `not ignored` when no rule matches). -/
theorem claim8_reverse_equiv_forward (fs : FsPath → Bool) (p : FsPath)
    (isd : Option Bool) (rules : List IgnoreRule) :
    scanRules fs p isd rules.reverse = specForwardLastMatch fs p isd rules := by
  rw [scanRules_eq_find?, specForwardLastMatch,
    foldl_lastMatch (fun r => r.matchPath fs p isd)]
  cases rules.reverse.find? (fun r => r.matchPath fs p isd) <;> simp [Option.or]

/-- Claim C9: for the input line consisting of exactly `!`, the compiler
raises `IndexError` at the `pattern[-1]` trailing-slash test on the
emptied pattern (for any absolute base path). -/
theorem claim9_bang_line_index_error (base : FsPath) (src : Str × Nat)
    (h : base.absolute = true) :
    rule_from_pattern ['!'] base src = .error .indexError := by
  rw [rule_from_pattern, if_neg (by simp [h])]
  rfl

/-- Witness for C9 at the concrete absolute base `/b`. -/
theorem claim9_bang_line_index_error_witness :
    (demoBase.absolute = true) ∧
      rule_from_pattern ['!'] demoBase ([], 1) = .error .indexError :=
  ⟨rfl, claim9_bang_line_index_error demoBase ([], 1) rfl⟩

/-- Claim C10: calling the matcher predicate with the empty string as the
candidate raises `IndexError` (from `_file_path[-1]`) instead of
returning a boolean, for every rule sequence and filesystem state. -/
theorem claim10_empty_string_index_error (fs : FsPath → Bool)
    (rules : List IgnoreRule) :
    handle_negation fs rules (.str []) = .error .indexError := rfl

/-- Claim C2 (code bug): the non-negated directory-only rule compiled from
`build/` has `directory_only = true`, yet the plain file `/b/build`
(directory hint `false`, nothing is a directory on this filesystem) is
reported as ignored: `IgnoreRule.match` never consults `is_dir` for
non-negated rules and the regex ending `($|\/)` accepts the bare name. -/
theorem claim2_trailing_slash_matches_plain_file :
    (demoRules ["build/"]).map (fun r => r.directory_only) = [true] ∧
      handle_negation fsNoDirs (demoRules ["build/"])
        (.str "/b/build".data) = .ok true := by
  constructor <;> rfl

/-- Claim C3 (code bug): `**` followed by `/` compiles to `.*` followed by
an optional separator `[/]?` — not to "zero or more whole segments each
terminated by a separator" — so the rule compiled from `a/**/b` matches
the candidate `/b/a/xb`, which the claim says must not match. -/
theorem claim3_doublestar_slash_matches_unaligned :
    transBody "a/**/b".data =
      [.lit 'a', .sep, .anyStar, .sepOpt, .lit 'b'] ∧
      handle_negation fsNoDirs (demoRules ["a/**/b"])
        (.str "/b/a/xb".data) = .ok true := by
  constructor <;> rfl

/-- Counterexample to C5 as stated: for the rule set `["a", "!a/"]` on a
filesystem where `/b/a` is a directory, the raw string `/b/a` (which does
not end in the separator) is evaluated with the explicit hint
`is_dir = False` and comes out ignored, whereas the no-hint (structured
path) evaluation probes the filesystem, sees a directory, and comes out
not ignored — so a string without a trailing separator is NOT treated
"exactly as when no hint is supplied". -/
theorem claim5_probe_counterexample :
    handle_negation fsDirBA (demoRules ["a", "!a/"]) (.str "/b/a".data) = .ok true ∧
      handle_negation fsDirBA (demoRules ["a", "!a/"])
        (.path ⟨true, [['b'], ['a']]⟩) = .ok false := by
  constructor <;> rfl

/-- Claim C5 (amended): a raw string ending in the separator carries the
explicit hint `is_dir = true`; any other nonempty raw string carries the
explicit hint `is_dir = false` (the filesystem is never probed for string
candidates — their evaluation is independent of the filesystem state);
directory-ness is probed only for structured path inputs. -/
theorem claim5_string_hint_amended :
    (∀ (fs fs' : FsPath → Bool) (rules : List IgnoreRule) (s : Str),
        handle_negation fs rules (.str s) = handle_negation fs' rules (.str s)) ∧
    (∀ (fs : FsPath → Bool) (rules : List IgnoreRule) (s : Str) (c : Char),
        s.getLast? = some c →
        handle_negation fs rules (.str s) =
          .ok (scanRules fs (pathOfStr s) (some (c == '/')) rules.reverse)) := by
  constructor
  · intro fs fs' rules s
    cases hl : s.getLast? with
    | none => simp [handle_negation, hl]
    | some c =>
        simp only [handle_negation, hl]
        rw [scanRules_some_fs fs fs' (pathOfStr s) (c == '/') rules.reverse]
  · intro fs rules s c h
    simp [handle_negation, h]

/-- Witness for the amended C5 at the concrete string `/a`. -/
theorem claim5_string_hint_amended_witness :
    (handle_negation (fun _ => true) [] (.str "/a".data) =
        handle_negation (fun _ => false) [] (.str "/a".data)) ∧
      ("/a".data.getLast? = some 'a') ∧
      (handle_negation (fun _ => false) [] (.str "/a".data) =
        .ok (scanRules (fun _ => false) (pathOfStr "/a".data) (some ('a' == '/'))
          ([] : List IgnoreRule).reverse)) :=
  ⟨claim5_string_hint_amended.1 (fun _ => true) (fun _ => false) [] "/a".data,
   by decide,
   claim5_string_hint_amended.2 (fun _ => false) [] "/a".data 'a' (by decide)⟩

/-- Counterexample to C6 as stated: the input line `!**a` contains a `**`
that is neither at the very start of the line, nor at the very end, nor
surrounded by `/` on both sides (witnessed by the same index predicate the
compiler uses, applied to the raw line), yet `rule_from_pattern` produces
a Rule for it: the invalid-`**` test runs only after the leading `!` has
been stripped, and in `**a` the `**` sits at the very start. -/
theorem claim6_bang_doublestar_counterexample :
    badDoubleStar "!**a".data = true ∧
      ((rule_from_pattern "!**a".data demoBase ([], 1)).toOption.join).isSome
        = true := by
  constructor <;> rfl

/-- Claim C6 (amended): a line that is blank/whitespace-only, or starts
with `#`, or contains `***`, or — after stripping a leading `!` —
contains an invalidly placed `**`, or is exactly `/` after trailing
whitespace strip, produces no Rule (and no exception) under any absolute
base, and removing such a line from an ignore file leaves the compiled
rule sequence unchanged (up to the diagnostic line numbers of later
rules).  (Lines read from a file never contain `'\n'`.) -/
theorem claim6_rejected_lines_amended (line : Str) (b : FsPath) (nm : Str)
    (src : Str × Nat) (xs ys : List Str)
    (habs : b.absolute = true) (hnl : '\n' ∉ line)
    (h : stripWs line = [] ∨ line.head? = some '#' ∨
         isSubstr ['*', '*', '*'] line = true ∨
         badDoubleStar (bangStripped line) = true ∨
         rstripWs line = ['/']) :
    rule_from_pattern line b src = .ok none ∧
      coresOf (parse_gitignore_lines b nm (xs ++ line :: ys)) =
        coresOf (parse_gitignore_lines b nm (xs ++ ys)) := by
  have hok : ∀ s : Str × Nat, rule_from_pattern line b s = .ok none := by
    intro s
    unfold rule_from_pattern
    rw [if_neg (by simp [habs])]
    simp only [rule_from_pattern_body]
    rcases h with h | h | h | h | h
    · rw [if_pos h]
    · by_cases h2 : stripWs line = []
      · rw [if_pos h2]
      · rw [if_neg h2, if_pos h]
    · by_cases h2 : stripWs line = []
      · rw [if_pos h2]
      · rw [if_neg h2]
        by_cases h3 : line.head? = some '#'
        · rw [if_pos h3]
        · rw [if_neg h3, if_pos h]
    · by_cases h2 : stripWs line = []
      · rw [if_pos h2]
      · rw [if_neg h2]
        by_cases h3 : line.head? = some '#'
        · rw [if_pos h3]
        · rw [if_neg h3]
          by_cases h4 : isSubstr ['*', '*', '*'] line = true
          · rw [if_pos h4]
          · rw [if_neg h4, if_pos h]
    · have hh : line.head? = some '/' := rstripWs_slash_head h
      have hbs : bangStripped line = line := by
        unfold bangStripped
        rw [hh]
        rfl
      by_cases h2 : stripWs line = []
      · rw [if_pos h2]
      · rw [if_neg h2]
        by_cases h3 : line.head? = some '#'
        · rw [if_pos h3]
        · rw [if_neg h3]
          by_cases h4 : isSubstr ['*', '*', '*'] line = true
          · rw [if_pos h4]
          · rw [if_neg h4]
            by_cases h5 : badDoubleStar (bangStripped line) = true
            · rw [if_pos h5]
            · rw [if_neg h5, if_pos (by rw [hbs]; exact h)]
  refine ⟨hok src, ?_⟩
  apply parse_cores_skip
  rw [rstripNl_eq_self hnl]
  exact hok (nm, 0)

/-- Witness for the amended C6 at the concrete line `***a` inside the file
`["a", "***a", "b"]`. -/
theorem claim6_rejected_lines_amended_witness :
    rule_from_pattern "***a".data demoBase ([], 1) = .ok none ∧
      coresOf (parse_gitignore_lines demoBase []
          (["a".data] ++ "***a".data :: ["b".data])) =
        coresOf (parse_gitignore_lines demoBase [] (["a".data] ++ ["b".data])) :=
  claim6_rejected_lines_amended "***a".data demoBase [] ([], 1)
    ["a".data] ["b".data] rfl (by decide)
    (Or.inr (Or.inr (Or.inl (by decide))))

/-- Counterexample to C7 as stated: compiling the line `!` against the
absolute base `/r` raises `IndexError` — so it is not true that no
exception is ever thrown when the base path is absolute. -/
theorem claim7_absolute_base_still_raises :
    (FsPath.mk true [['r']]).absolute = true ∧
      rule_from_pattern ['!'] ⟨true, [['r']]⟩ ([], 7) = .error .indexError := by
  constructor <;> rfl

/-- Claim C7 (amended): `rule_from_pattern` raises if and only if the
base path is not absolute (a `ValueError`) or the line is exactly `!`
(whose emptied pattern hits the `pattern[-1]` `IndexError`); every other
line compiled against an absolute base yields a Rule or `None`. -/
theorem claim7_error_iff (p : Str) (b : FsPath) (src : Str × Nat) :
    (∃ e, rule_from_pattern p b src = .error e) ↔
      (b.absolute = false ∨ p = ['!']) := by
  constructor
  · rintro ⟨e, he⟩
    by_cases habs : b.absolute = false
    · exact Or.inl habs
    · right
      unfold rule_from_pattern at he
      rw [if_neg habs] at he
      simp only [rule_from_pattern_body] at he
      by_cases h2 : stripWs p = []
      · rw [if_pos h2] at he; cases he
      · rw [if_neg h2] at he
        by_cases h3 : p.head? = some '#'
        · rw [if_pos h3] at he; cases he
        · rw [if_neg h3] at he
          by_cases h4 : isSubstr ['*', '*', '*'] p = true
          · rw [if_pos h4] at he; cases he
          · rw [if_neg h4] at he
            by_cases h5 : badDoubleStar (bangStripped p) = true
            · rw [if_pos h5] at he; cases he
            · rw [if_neg h5] at he
              by_cases h6 : rstripWs (bangStripped p) = ['/']
              · rw [if_pos h6] at he; cases he
              · rw [if_neg h6] at he
                cases hg : (bangStripped p).getLast? with
                | some c => rw [hg] at he; simp at he
                | none =>
                    have hb : bangStripped p = [] := by
                      rwa [List.getLast?_eq_none_iff] at hg
                    unfold bangStripped at hb
                    by_cases hbang : (p.head? == some '!') = true
                    · rw [if_pos hbang] at hb
                      cases p with
                      | nil => simp at hbang
                      | cons a t =>
                          simp only [List.head?_cons, beq_iff_eq,
                            Option.some.injEq] at hbang
                          simp only [List.drop_one, List.tail_cons] at hb
                          rw [hbang, hb]
                    · rw [if_neg hbang] at hb
                      exact absurd (by rw [hb]; rfl) h2
  · rintro (h | h)
    · exact ⟨.valueError, by unfold rule_from_pattern; rw [if_pos h]⟩
    · subst h
      by_cases habs : b.absolute = false
      · exact ⟨.valueError, by unfold rule_from_pattern; rw [if_pos habs]⟩
      · exact ⟨.indexError, by unfold rule_from_pattern; rw [if_neg habs]; rfl⟩

/-- Claim C4: (i) the fragment `[^/]*` compiled from a single `*` consumes
only non-separator characters — whenever it participates in a match, the
matched input splits into a separator-free part consumed by the `*` and a
rest matched by the remaining atoms, and conversely; (ii) `**/x` compiles
to an unanchored search for `x` and matches `x` at any depth under the
base, including directly at its root (`segs = []`); (iii) `a/**` compiles
to an anchored `a/` followed by `.*[^/]*` and matches every path strictly
under the directory `a`, at any depth. -/
theorem claim4_star_glob_semantics :
    (∀ (as : List RAtom) (s : Str) (e : REnd),
        atomsMatch (.nonsepStar :: as) s e = true ↔
          ∃ n, (∀ c ∈ s.take n, c ≠ '/') ∧ atomsMatch as (s.drop n) e = true) ∧
    (∀ (base : FsPath) (src : Str × Nat), base.absolute = true →
        rule_from_pattern "**/x".data base src =
          .ok (some (starStarSlashXRule base src))) ∧
    (∀ (base : FsPath) (src : Str × Nat) (fs : FsPath → Bool)
        (hint : Option Bool) (segs : List Str), base.absolute = true →
        (starStarSlashXRule base src).matchPath fs
          ⟨true, base.segs ++ (segs ++ [['x']])⟩ hint = true) ∧
    (∀ (base : FsPath) (src : Str × Nat), base.absolute = true →
        rule_from_pattern "a/**".data base src =
          .ok (some (aSlashStarStarRule base src))) ∧
    (∀ (base : FsPath) (src : Str × Nat) (fs : FsPath → Bool)
        (hint : Option Bool) (seg : Str) (segs : List Str), base.absolute = true →
        (aSlashStarStarRule base src).matchPath fs
          ⟨true, base.segs ++ (['a'] :: seg :: segs)⟩ hint = true) := by
  refine ⟨?_, ?_, ?_, ?_, ?_⟩
  · intro as s e
    show tryStar (fun c => !(c = '/' : Bool)) (fun t => atomsMatch as t e) s
        = true ↔ _
    rw [tryStar_iff]
    apply exists_congr
    intro n
    constructor
    · rintro ⟨h1, h2⟩
      exact ⟨fun c hc => by simpa using h1 c hc, h2⟩
    · rintro ⟨h1, h2⟩
      exact ⟨fun c hc => by simpa using h1 c hc, h2⟩
  · intro base src habs
    unfold rule_from_pattern
    rw [if_neg (by simp [habs])]
    rfl
  · intro base src fs hint segs habs
    unfold IgnoreRule.matchPath
    have hrel := relParts_append base (segs ++ [['x']]) habs
    simp only [starStarSlashXRule] at hrel ⊢
    rw [hrel]
    simp only [Bool.false_and, if_neg (by simp : ¬(false = true))]
    obtain ⟨pre, hp⟩ := joinSep_concat segs ['x']
    rw [hp]
    exact reSearch_lit_last 'x' pre
  · intro base src habs
    unfold rule_from_pattern
    rw [if_neg (by simp [habs])]
    rfl
  · intro base src fs hint seg segs habs
    unfold IgnoreRule.matchPath
    have hrel := relParts_append base (['a'] :: seg :: segs) habs
    simp only [aSlashStarStarRule] at hrel ⊢
    rw [hrel]
    simp only [Bool.false_and, if_neg (by simp : ¬(false = true))]
    rw [joinSep_cons_cons]
    show reSearch ⟨true, [.lit 'a', .sep, .anyStar, .nonsepStar], .eos⟩
        ('a' :: '/' :: joinSep (seg :: segs)) = true
    unfold reSearch
    rw [if_pos rfl]
    rw [aStarStar_atoms_match (joinSep (seg :: segs))]
    rfl

/-- Witness for C4 at the concrete base `/b`: `**/x` matches `/b/d/x`;
`a/**` matches `/b/a/q`; the `[^/]*` fragment characterization applied at
the input `q`. -/
theorem claim4_star_glob_semantics_witness :
    (∃ n, (∀ c ∈ (['q'] : Str).take n, c ≠ '/') ∧
        atomsMatch [] ((['q'] : Str).drop n) .eos = true) ∧
      rule_from_pattern "**/x".data demoBase ([], 1) =
        .ok (some (starStarSlashXRule demoBase ([], 1))) ∧
      (starStarSlashXRule demoBase ([], 1)).matchPath fsNoDirs
        ⟨true, demoBase.segs ++ ([['d']] ++ [['x']])⟩ (some false) = true ∧
      rule_from_pattern "a/**".data demoBase ([], 1) =
        .ok (some (aSlashStarStarRule demoBase ([], 1))) ∧
      (aSlashStarStarRule demoBase ([], 1)).matchPath fsNoDirs
        ⟨true, demoBase.segs ++ (['a'] :: ['q'] :: [])⟩ (some false) = true :=
  ⟨(claim4_star_glob_semantics.1 [] ['q'] .eos).mp (by decide),
   claim4_star_glob_semantics.2.1 demoBase ([], 1) rfl,
   claim4_star_glob_semantics.2.2.1 demoBase ([], 1) fsNoDirs (some false)
     [['d']] rfl,
   claim4_star_glob_semantics.2.2.2.1 demoBase ([], 1) rfl,
   claim4_star_glob_semantics.2.2.2.2 demoBase ([], 1) fsNoDirs (some false)
     ['q'] [] rfl⟩
